import Mathlib

/-!
# Verification of the tparse duration-expression library

This file embeds the core logic of the `tparse` Go library
(duration-expression evaluator and entry-point resolver) as executable
Lean definitions and proves properties of the embedding.

Modelling conventions:
* An `Instant` (Go `time.Time` in UTC) is modelled as the number of
  nanoseconds since the Unix epoch, an integer `ℤ`.  Go's monotonic
  clock reading and location are irrelevant to the evaluated claims.
* Go `float64` arithmetic is modelled with exact rationals `ℚ`; Go's
  `float64`→`int64` conversions and `math.Trunc` both truncate toward
  zero, modelled by `ratTrunc`.  Rounding error of binary floats is not
  modelled; every concrete scenario evaluated below is exactly
  representable, so the modelled values coincide with the `float64`
  ones there.
* Go strings are modelled as `List Char`.  The source only records
  indices at rune boundaries, so rune-level indexing coincides with the
  source's byte-level indexing on every path.
* Go `int`/`int64` values are modelled as `ℤ`; two's-complement
  wraparound is not modelled (no claim involves quantities anywhere
  near `2^63`).
-/

namespace Tparse

/-!
### Computable rational arithmetic

The field operations of `ℚ` are `@[irreducible]` in this toolchain, so
values built with them cannot be evaluated by `decide`.  The embedding
therefore routes every rational computation through the operations
below, written with `mkRat` (which normalizes and reduces fine); the
bridge lemmas right after identify each with the corresponding field
operation, so the symbolic theorems can reason with ordinary `ℚ`
algebra. -/

/-- The rational `z / 1` (the model of Go's `float64(z)` conversion,
exact). -/
def intToQ (z : ℤ) : ℚ := mkRat z 1

/-- Addition on `ℚ` via `mkRat`. -/
def qadd (a b : ℚ) : ℚ := mkRat (a.num * b.den + b.num * a.den) (a.den * b.den)

/-- Negation on `ℚ` via `mkRat`. -/
def qneg (a : ℚ) : ℚ := mkRat (-a.num) a.den

/-- Subtraction on `ℚ` via `mkRat`. -/
def qsub (a b : ℚ) : ℚ := qadd a (qneg b)

/-- Multiplication on `ℚ` via `mkRat`. -/
def qmul (a b : ℚ) : ℚ := mkRat (a.num * b.num) (a.den * b.den)

/-- Inverse on `ℚ` via `mkRat` (zero maps to zero, as `Rat.inv`
does). -/
def qinv (a : ℚ) : ℚ :=
  if a.num < 0 then mkRat (-(a.den : ℤ)) (-a.num).toNat
  else mkRat (a.den : ℤ) a.num.toNat

/-- Division on `ℚ` via `mkRat`. -/
def qdiv (a b : ℚ) : ℚ := qmul a (qinv b)

theorem intToQ_eq (z : ℤ) : intToQ z = (z : ℚ) := by
  simp [intToQ, Rat.mkRat_eq_div]

theorem qadd_eq (a b : ℚ) : qadd a b = a + b := by
  have ha : ((a.den : ℚ)) ≠ 0 := Nat.cast_ne_zero.mpr a.den_nz
  have hb : ((b.den : ℚ)) ≠ 0 := Nat.cast_ne_zero.mpr b.den_nz
  rw [qadd, Rat.mkRat_eq_div]
  push_cast
  conv_rhs => rw [← Rat.num_div_den a, ← Rat.num_div_den b, div_add_div _ _ ha hb]
  ring_nf

theorem qneg_eq (a : ℚ) : qneg a = -a := by
  rw [qneg, Rat.mkRat_eq_div]
  push_cast
  conv_rhs => rw [← Rat.num_div_den a]
  rw [neg_div]

theorem qsub_eq (a b : ℚ) : qsub a b = a - b := by
  rw [qsub, qadd_eq, qneg_eq, sub_eq_add_neg]

theorem qmul_eq (a b : ℚ) : qmul a b = a * b := by
  rw [qmul, Rat.mkRat_eq_div]
  push_cast
  conv_rhs => rw [← Rat.num_div_den a, ← Rat.num_div_den b, div_mul_div_comm]

theorem qinv_eq (a : ℚ) : qinv a = a⁻¹ := by
  rw [qinv]
  split
  case isTrue h =>
    have h2 : (((-a.num).toNat : ℕ) : ℚ) = -(a.num : ℚ) := by
      have := Int.toNat_of_nonneg (show (0 : ℤ) ≤ -a.num by omega)
      exact_mod_cast congrArg (fun z : ℤ => (z : ℚ)) this
    rw [Rat.mkRat_eq_div, h2]
    push_cast
    conv_rhs => rw [← Rat.num_div_den a, inv_div]
    rw [neg_div_neg_eq]
  case isFalse h =>
    have h2 : ((a.num.toNat : ℕ) : ℚ) = (a.num : ℚ) := by
      have := Int.toNat_of_nonneg (show (0 : ℤ) ≤ a.num by omega)
      exact_mod_cast congrArg (fun z : ℤ => (z : ℚ)) this
    rw [Rat.mkRat_eq_div, h2]
    push_cast
    conv_rhs => rw [← Rat.num_div_den a, inv_div]

theorem qdiv_eq (a b : ℚ) : qdiv a b = a / b := by
  rw [qdiv, qmul_eq, qinv_eq, div_eq_mul_inv]

/-- Truncation toward zero of a rational, as an integer: the model of
Go's `math.Trunc` and of Go `float64`→`int64` conversion. -/
def ratTrunc (q : ℚ) : ℤ := q.num.tdiv q.den

/-- Truncation toward zero, staying in `ℚ` (Go keeps the value a
`float64` after `math.Trunc`). -/
def ratTruncQ (q : ℚ) : ℚ := intToQ (ratTrunc q)

theorem ratTrunc_zero : ratTrunc 0 = 0 := by decide

theorem ratTrunc_intCast (z : ℤ) : ratTrunc (z : ℚ) = z := by
  simp [ratTrunc, Rat.num_intCast, Rat.den_intCast, Int.tdiv_one]

theorem ratTruncQ_eq (q : ℚ) : ratTruncQ q = ((ratTrunc q : ℤ) : ℚ) := by
  rw [ratTruncQ, intToQ_eq]

/-- `pow10 z` models Go `math.Pow(10, float64(z))` at an integer
exponent (exact for the small exponents produced by fraction
scanning). -/
def pow10 (z : ℤ) : ℚ :=
  if 0 ≤ z then intToQ (10 ^ z.toNat) else qdiv (intToQ 1) (intToQ (10 ^ (-z).toNat))

/-! ## Calendar model (Go `time` package, UTC)

`time.Time.AddDate` converts the time to its civil date, offsets the
year/month/day fields, and renormalizes (months by floored division
into `[1,12]` with year carry; an out-of-range day extrapolates
linearly, e.g. Feb 30 becomes Mar 2).  We model the civil⇄linear
conversions with the standard proleptic-Gregorian algorithms, which
agree with Go's for all dates. -/

/-- Nanoseconds per civil day. -/
def nsPerDay : ℤ := 86400000000000

/-- Days since the Unix epoch of the civil date `(y, m, d)`, for
`m ∈ [1,12]`; the day `d` may lie outside its month, in which case the
date extrapolates linearly (matching Go's `Date` normalization). -/
def daysFromCivil (y m d : ℤ) : ℤ :=
  let y' := y - (if m ≤ 2 then 1 else 0)
  let era := y'.fdiv 400
  let yoe := y' - era * 400
  let mp := if 2 < m then m - 3 else m + 9
  let doy := (153 * mp + 2).fdiv 5 + d - 1
  let doe := yoe * 365 + yoe.fdiv 4 - yoe.fdiv 100 + doy
  era * 146097 + doe - 719468

/-- Civil date `(y, m, d)` of the given day count since the Unix
epoch. -/
def civilFromDays (z : ℤ) : ℤ × ℤ × ℤ :=
  let z' := z + 719468
  let era := z'.fdiv 146097
  let doe := z' - era * 146097
  let yoe := (doe - doe.fdiv 1460 + doe.fdiv 36524 - doe.fdiv 146096).fdiv 365
  let y := yoe + era * 400
  let doy := doe - (365 * yoe + yoe.fdiv 4 - yoe.fdiv 100)
  let mp := (5 * doy + 2).fdiv 153
  let d := doy - (153 * mp + 2).fdiv 5 + 1
  let m := if mp < 10 then mp + 3 else mp - 9
  (y + (if m ≤ 2 then 1 else 0), m, d)

/-- Go's `norm` applied to the month field by `time.Date`: bring the
month into `[1,12]`, carrying whole years. -/
def normMonth (y m : ℤ) : ℤ × ℤ :=
  (y + (m - 1).fdiv 12, (m - 1).fmod 12 + 1)

/-- Model of Go `time.Time.AddDate(y, m, d)` on a UTC instant: split
into civil date and time of day, offset the date fields, renormalize
via `normMonth` and the linear day rule, and reattach the time of
day. -/
def addDate (t y m d : ℤ) : ℤ :=
  let days := t.fdiv nsPerDay
  let tod := t.fmod nsPerDay
  let c := civilFromDays days
  let ym := normMonth (c.1 + y) (c.2.1 + m)
  daysFromCivil ym.1 ym.2 (c.2.2 + d) * nsPerDay + tod

/-- The instant (ns since the Unix epoch) of a UTC civil date and
clock time; convenience for stating concrete scenarios. -/
def mkInstant (y mo d h mi s : ℤ) : ℤ :=
  daysFromCivil y mo d * nsPerDay + ((h * 60 + mi) * 60 + s) * 1000000000

/-- Go's zero `time.Time`, i.e. 0001-01-01T00:00:00 UTC, as an
instant. -/
def zeroTime : ℤ := mkInstant 1 1 1 0 0 0

/-! ## Duration expression evaluator, v2 (`AddDuration`)

Embedding of `AddDuration` from the v2 module (src/unnamed/part_005):
a streaming scan over the string accumulating per-domain totals,
followed by fractional-cascade decomposition and the final calendar /
linear combination. -/

/-- The four running totals of `AddDuration` (Go variables
`totalYears`, `totalMonths`, `totalDays`, `totalDuration`, all
`float64`; `totalDuration` is in nanoseconds). -/
structure Totals where
  years : ℚ
  months : ℚ
  days : ℚ
  dur : ℚ
deriving DecidableEq, Repr

/-- The errors the embedded functions produce, one constructor per
`fmt.Errorf` call site (the payload carries the interpolated text). -/
inductive GoErr where
  /-- part_005 line 175: "invalid floating point number format: two
  decimal points found". -/
  | twoDecimals
  /-- part_005 line 209: `"unknown unit in duration: %q"`. -/
  | unknownUnit (unit : String)
  /-- tparse.go line 182: `"extra characters: %s"`. -/
  | extraChars (rest : String)
  /-- `strconv.Atoi` syntax failure (reached from tparse.go line
  194). -/
  | atoiSyntax (s : String)
deriving DecidableEq, Repr

/-- Outcome of a Go `(time.Time, error)` function that can also crash:
`ok t` is a `nil`-error return of `t`, `err t e` is a return of `t`
together with error `e`, and `panic` is a runtime panic. -/
inductive DResult where
  | ok (t : ℤ)
  | err (t : ℤ) (e : GoErr)
  | panic
deriving DecidableEq, Repr

/-- `isDigitChar c` is the Go byte test `'0' <= c && c <= '9'`. -/
def isDigitChar (c : Char) : Bool := '0' ≤ c && c ≤ '9'

/-- The unit-scan test of part_005 line 195:
`s[i] != '+' && s[i] != '-' && (s[i] < '0' || s[i] > '9')`. -/
def isUnitChar (c : Char) : Bool := c ≠ '+' && c ≠ '-' && ! isDigitChar c

/-- The v2 `unitMap` table (part_005 lines 105–129): spellings of the
fixed-length units and their `float64` nanosecond lengths.  Note that
in this variant the day and week spellings are in this table, i.e.
they are fixed 24-hour / 168-hour linear durations. -/
def unitMap (u : String) : Option ℚ :=
  if u = "ns" then some 1
  else if u = "us" then some 1000
  else if u = "µs" then some 1000
  else if u = "μs" then some 1000
  else if u = "ms" then some 1000000
  else if u = "s" ∨ u = "sec" ∨ u = "second" ∨ u = "seconds" then some 1000000000
  else if u = "m" ∨ u = "min" ∨ u = "minute" ∨ u = "minutes" then some 60000000000
  else if u = "h" ∨ u = "hr" ∨ u = "hour" ∨ u = "hours" then some 3600000000000
  else if u = "d" ∨ u = "day" ∨ u = "days" then some 86400000000000
  else if u = "w" ∨ u = "week" ∨ u = "weeks" then some 604800000000000
  else none

/-- The month spellings of the `switch` at part_005 line 204. -/
def isMonthUnit (u : String) : Bool :=
  u = "mo" || u = "mon" || u = "month" || u = "months" || u = "mth" || u = "mn"

/-- The year spellings of the `switch` at part_005 line 206. -/
def isYearUnit (u : String) : Bool :=
  u = "y" || u = "year" || u = "years"

/-- Result of the digit-consumption loop (part_005 lines 172–185). -/
inductive DigitsOut where
  /-- The loop condition read `s[0]` with `s` empty: runtime panic. -/
  | panic
  | err (e : GoErr)
  /-- Loop exited normally: remaining input and updated `exp`,
  `fraction`, `whole`. -/
  | ok (rest : List Char) (exp fraction whole : ℤ)
deriving DecidableEq, Repr

/-- The digit-consumption loop of part_005 lines 172–185.  The loop
condition indexes `s[0]` unconditionally, so exhausting the string
inside the loop is a runtime panic (index out of range). -/
def consumeDigits : List Char → ℤ → ℤ → ℤ → DigitsOut
  | [], _, _, _ => .panic
  | c :: rest, exp, fraction, whole =>
    if c = '.' then
      if 0 < exp then .err .twoDecimals
      else consumeDigits rest 1 0 whole
    else if isDigitChar c then
      if 0 < exp then
        consumeDigits rest (exp + 1) (10 * fraction + ((c.toNat : ℤ) - ('0'.toNat : ℤ))) whole
      else
        consumeDigits rest exp fraction (10 * whole + ((c.toNat : ℤ) - ('0'.toNat : ℤ)))
    else .ok (c :: rest) exp fraction whole

/-- Result of the v2 token scan. -/
inductive ScanOut where
  | ok (t : Totals)
  | err (e : GoErr)
  | panic
deriving DecidableEq, Repr

/-- The sign-consumption step at the top of each iteration of the
v2 scan loop (part_005 lines 163–170): a leading `'+'`/`'-'` sets
`isNegative` and is consumed; otherwise `isNegative` keeps the value
it had after the previous token. -/
def consumeSign (s : List Char) (isNegative : Bool) : Bool × List Char :=
  match s with
  | [] => (isNegative, [])
  | c :: rest =>
    if c = '+' then (false, rest)
    else if c = '-' then (true, rest)
    else (isNegative, c :: rest)

/-- The `for s != ""` loop of part_005 lines 162–215, one fuel unit
per iteration.  State threaded between iterations exactly as in the
source: `isNegative`, `exp` and `fraction` persist across tokens
(the source resets only `whole`, line 214, so each iteration starts
with `whole = 0`).  Every iteration that recurses consumes at least
one character, so the initial fuel `s.length + 1` used by
`AddDuration` is never exhausted; fuel 0 is mapped to `panic` as an
unreachable marker. -/
def scanTokens : Nat → List Char → Bool → ℤ → ℤ → Totals → ScanOut
  | 0, _, _, _, _, _ => .panic
  | fuel + 1, s, isNegative, exp, fraction, tot =>
    let signed : Bool × List Char := consumeSign s isNegative
    match consumeDigits signed.2 exp fraction 0 with
    | .panic => .panic
    | .err e => .err e
    | .ok rest exp' fraction' whole =>
      -- lines 186–192
      let number0 : ℚ :=
        qadd (intToQ whole) (if 0 < exp' then qmul (intToQ fraction') (pow10 (1 - exp')) else 0)
      let number : ℚ := if signed.1 then qneg number0 else number0
      -- find end of unit (lines 193–198)
      let unit : List Char := rest.takeWhile isUnitChar
      let s' : List Char := rest.dropWhile isUnitChar
      let uStr : String := String.mk unit
      -- classify the unit (lines 200–211)
      let tot? : Option Totals :=
        match unitMap uStr with
        | some w => some { tot with dur := qadd tot.dur (qmul number w) }
        | none =>
          if isMonthUnit uStr then some { tot with months := qadd tot.months number }
          else if isYearUnit uStr then some { tot with years := qadd tot.years number }
          else none
      match tot? with
      | none => .err (.unknownUnit uStr)
      | some tot' =>
        if s' = [] then .ok tot'
        else scanTokens fuel s' signed.1 exp' fraction' tot'

/-- The fractional-cascade decomposition of part_005 lines 216–233:
year remainder into months (×12), month remainder into days (×30),
day remainder into the linear-duration total (×24 h). -/
def cascade (t : Totals) : Totals :=
  let t1 :=
    if t.years ≠ 0 then
      { t with years := ratTruncQ t.years,
               months := qadd t.months (qmul 12 (qsub t.years (ratTruncQ t.years))) }
    else t
  let t2 :=
    if t1.months ≠ 0 then
      { t1 with months := ratTruncQ t1.months,
                days := qadd t1.days (qmul 30 (qsub t1.months (ratTruncQ t1.months))) }
    else t1
  if t2.days ≠ 0 then
    { t2 with days := ratTruncQ t2.days,
              dur := qadd t2.dur (qmul (qmul (qsub t2.days (ratTruncQ t2.days)) 24)
                3600000000000) }
  else t2

/-- The fractional cascade exactly as §4.1 of the spec words it,
without the source's nonzero guards: split each calendar total into
integer part and fractional remainder, pushing `12 ×` the year
remainder into months, `30 ×` the month remainder into days, and
`24 h ×` the day remainder into the linear-duration total.  Stated
from the spec's words for comparison against `cascade`, which is
translated from the source. -/
def cascadeSpec (t : Totals) : Totals :=
  let m2 := t.months + 12 * (t.years - ratTruncQ t.years)
  let d2 := t.days + 30 * (m2 - ratTruncQ m2)
  ⟨ratTruncQ t.years, ratTruncQ m2, ratTruncQ d2,
    t.dur + (d2 - ratTruncQ d2) * 24 * 3600000000000⟩

/-- The calendar step of the final combination (part_005 lines
234–236): `base.AddDate(int(totalYears), int(totalMonths),
int(totalDays))`, guarded by "some calendar total is nonzero". -/
def applyCalendar (base : ℤ) (t : Totals) : ℤ :=
  if t.years ≠ 0 ∨ t.months ≠ 0 ∨ t.days ≠ 0 then
    addDate base (ratTrunc t.years) (ratTrunc t.months) (ratTrunc t.days)
  else base

/-- The linear step of the final combination (part_005 lines 237–239):
`base.Add(time.Duration(totalDuration))`, guarded by "the duration
total is nonzero". -/
def applyLinear (b : ℤ) (t : Totals) : ℤ :=
  if t.dur ≠ 0 then b + ratTrunc t.dur else b

/-- The full token scan of an expression: the v2 loop started from
the zero state (`isNegative = false`, `exp = fraction = 0`, all
totals zero) with ample fuel. -/
def scanExpr (s : List Char) : ScanOut :=
  scanTokens (s.length + 1) s false 0 0 ⟨0, 0, 0, 0⟩

/-- Embedding of v2 `AddDuration` (part_005 lines 154–241). -/
def AddDuration (base : ℤ) (s : List Char) : DResult :=
  if s = [] then .ok base
  else
    match scanExpr s with
    | .panic => .panic
    | .err e => .err base e
    | .ok tot => .ok (applyLinear (applyCalendar base (cascade tot)) (cascade tot))

/-- Characters of a string literal; all claim inputs are written
through this. -/
def str (s : String) : List Char := s.data

/-! ## Host-library models

`strconv.Atoi`, `strconv.ParseFloat`, and `time.ParseDuration` are Go
standard-library collaborators (the spec treats them as external).
They are modelled here from their documented behavior; `ParseFloat` is
modelled on plain decimal strings (the only shape the claims touch),
and overflow is not modelled. -/

/-- Value of a nonempty all-digit run (helper shared by the numeric
parsers below). -/
def digitsVal (s : List Char) : Option ℤ :=
  if s = [] then none
  else if s.all isDigitChar then
    some (s.foldl (fun a c => 10 * a + ((c.toNat : ℤ) - ('0'.toNat : ℤ))) 0)
  else none

/-- Model of Go `strconv.Atoi`: optional sign followed by at least one
digit, nothing else. -/
def goAtoi (s : List Char) : Option ℤ :=
  match s with
  | '+' :: rest => digitsVal rest
  | '-' :: rest => (digitsVal rest).map (fun v => -v)
  | _ => digitsVal s

/-- The unit table of Go `time.ParseDuration` (nanosecond values). -/
def pdUnit (u : String) : Option ℤ :=
  if u = "ns" then some 1
  else if u = "us" then some 1000
  else if u = "µs" then some 1000
  else if u = "μs" then some 1000
  else if u = "ms" then some 1000000
  else if u = "s" then some 1000000000
  else if u = "m" then some 60000000000
  else if u = "h" then some 3600000000000
  else none

/-- Integer value of a digit run (zero when empty). -/
def digitsNum (s : List Char) : ℤ :=
  s.foldl (fun a c => 10 * a + ((c.toNat : ℤ) - ('0'.toNat : ℤ))) 0

/-- One `number[.fraction]unit` group per iteration of Go
`time.ParseDuration`'s main loop; fuel decreases once per group and
`goParseDuration` supplies more fuel than groups, so the 0-fuel branch
is unreachable from it. -/
def pdLoop : Nat → List Char → ℤ → Option ℤ
  | 0, _, _ => none
  | _, [], acc => some acc
  | fuel + 1, s, acc =>
    let intDigits := s.takeWhile isDigitChar
    let s1 := s.dropWhile isDigitChar
    let fracAndRest : List Char × List Char :=
      match s1 with
      | '.' :: r => (r.takeWhile isDigitChar, r.dropWhile isDigitChar)
      | _ => ([], s1)
    let hadDot : Bool := decide (s1.head? = some '.')
    if intDigits = [] ∧ (¬hadDot ∨ fracAndRest.1 = []) then none
    else
      let v : ℤ := digitsNum intDigits
      let f : ℤ := digitsNum fracAndRest.1
      let scale : ℤ := 10 ^ fracAndRest.1.length
      let unit := fracAndRest.2.takeWhile (fun c => !(c = '.' || isDigitChar c))
      let s3 := fracAndRest.2.dropWhile (fun c => !(c = '.' || isDigitChar c))
      if unit = [] then none
      else
        match pdUnit (String.mk unit) with
        | none => none
        | some u =>
          let contrib : ℤ :=
            v * u + (if 0 < f then ratTrunc (qmul (intToQ f) (qdiv (intToQ u) (intToQ scale)))
              else 0)
          pdLoop fuel s3 (acc + contrib)

/-- Model of Go `time.ParseDuration` (result in nanoseconds; `none`
models a parse error). -/
def goParseDuration (s : List Char) : Option ℤ :=
  let signAndRest : Bool × List Char :=
    match s with
    | '-' :: r => (true, r)
    | '+' :: r => (false, r)
    | _ => (false, s)
  if signAndRest.2 = ['0'] then some 0
  else if signAndRest.2 = [] then none
  else
    (pdLoop (signAndRest.2.length + 1) signAndRest.2 0).map
      (fun d => if signAndRest.1 then -d else d)

/-- Model of Go `strconv.ParseFloat` restricted to plain decimal
strings `[+-]digits[.digits]` (with at least one digit); exponent,
hexadecimal, and inf/NaN forms are not modelled and yield `none`. -/
def goParseFloat (s : List Char) : Option ℚ :=
  let signAndRest : Bool × List Char :=
    match s with
    | '-' :: r => (true, r)
    | '+' :: r => (false, r)
    | _ => (false, s)
  let ip := signAndRest.2.takeWhile isDigitChar
  let s2 := signAndRest.2.dropWhile isDigitChar
  let fracAndRest : List Char × List Char :=
    match s2 with
    | '.' :: r => (r.takeWhile isDigitChar, r.dropWhile isDigitChar)
    | _ => ([], s2)
  if fracAndRest.2 ≠ [] then none
  else if ip = [] ∧ fracAndRest.1 = [] then none
  else if s2 ≠ [] ∧ s2.head? ≠ some '.' then none
  else
    let q : ℚ := qadd (intToQ (digitsNum ip))
      (qdiv (intToQ (digitsNum fracAndRest.1)) (intToQ (10 ^ fracAndRest.1.length)))
    some (if signAndRest.1 then qneg q else q)

/-! ## Duration expression evaluator, v1 (`addDuration`, tparse.go)

The historical v1 evaluator of src/tparse.go: a rune state machine
over `[+-][0-9]+[^-+0-9]+` token runs, with `calcDuration` mapping
each token to per-domain integer totals and the fixed-length fallback
`time.ParseDuration`.  The source iterates runes with byte indices;
all recorded indices sit on rune boundaries, so the `List Char` index
model below coincides with it.  `unicode.IsDigit` is modelled by the
ASCII digit test (no claim involves non-ASCII digits). -/

/-- Go string slice `value[a:b]` on the char model. -/
def slice (value : List Char) (a b : ℕ) : List Char :=
  (value.drop a).take (b - a)

/-- Embedding of `calcDuration` (tparse.go lines 193–229): convert the
number with `strconv.Atoi`, dispatch on the unit spelling to the
`(years, months, days, duration)` quadruple, and for an unrecognized
spelling fall back to `time.ParseDuration(number + unit)`.  The
source assigns the fallback's error to `err` but then executes
`return y, m, d, duration, nil` (line 228), so a fallback failure is
discarded and the token contributes a zero duration; the model keeps
that behavior via `Option.getD 0`. -/
def calcDuration (positive : Bool) (number unit : List Char) :
    Except GoErr (ℤ × ℤ × ℤ × ℤ) :=
  match goAtoi number with
  | none => .error (.atoiSyntax (String.mk number))
  | some value =>
    let u := String.mk unit
    let q : ℤ × ℤ × ℤ × ℤ :=
      if u = "d" ∨ u = "day" ∨ u = "days" then (0, 0, value, 0)
      else if u = "w" ∨ u = "week" ∨ u = "weeks" then (0, 0, 7 * value, 0)
      else if u = "mo" ∨ u = "mon" ∨ u = "month" ∨ u = "months" ∨ u = "mth" ∨ u = "mn" then
        (0, value, 0, 0)
      else if u = "y" ∨ u = "year" ∨ u = "years" then (value, 0, 0, 0)
      else if u = "sec" ∨ u = "second" ∨ u = "seconds" then (0, 0, 0, value * 1000000000)
      else if u = "min" ∨ u = "minute" ∨ u = "minutes" then (0, 0, 0, value * 60000000000)
      else if u = "hr" ∨ u = "hour" ∨ u = "hours" then (0, 0, 0, value * 3600000000000)
      else (0, 0, 0, (goParseDuration (number ++ unit)).getD 0)
    .ok (if positive then q else (-q.1, -q.2.1, -q.2.2.1, -q.2.2.2))

/-- Embedding of `bar` (tparse.go lines 187–191). -/
def bar (value : List Char) (positive : Bool) (iNumber iUnit i : ℕ) :
    Except GoErr (ℤ × ℤ × ℤ × ℤ) :=
  calcDuration positive (slice value iNumber iUnit) (slice value iUnit i)

/-- The mutable locals of v1 `addDuration` that persist across runes
(`setComplete` is set and consumed within a single iteration and needs
no field). -/
structure V1State where
  identifier : Bool
  positive : Bool
  iUnit : ℕ
  iNumber : ℕ
  startNumberNextRune : Bool
  ty : ℤ
  tm : ℤ
  td : ℤ
  tdur : ℤ
deriving DecidableEq, Repr

/-- The sign switch at tparse.go lines 149–154 (also lines
156–162 minus the `startNumberNextRune` effect, which the caller
handles). -/
def updateSign (st : V1State) (c : Char) : V1State :=
  if c = '+' then { st with positive := true }
  else if c = '-' then { st with positive := false }
  else st

/-- The body of the `for i, rune := range value` loop of v1
`addDuration` (tparse.go lines 118–170) for one rune `c` at index
`i`. -/
def v1Step (value : List Char) (i : ℕ) (c : Char) (st : V1State) :
    Except GoErr V1State :=
  let st :=
    if st.startNumberNextRune then { st with iNumber := i, startNumberNextRune := false }
    else st
  if st.identifier then
    let setComplete : Bool := c = '+' || c = '-' || isDigitChar c
    let st :=
      if setComplete then
        { st with identifier := false,
                  startNumberNextRune := (c = '+' || c = '-') }
      else st
    if setComplete ∧ 0 < i then
      match bar value st.positive st.iNumber st.iUnit i with
      | .error e => .error e
      | .ok (y, m, d, dur) =>
        .ok (updateSign { st with ty := st.ty + y, tm := st.tm + m, td := st.td + d,
                                  tdur := st.tdur + dur, iNumber := i } c)
    else .ok (updateSign st c)
  else
    if c = '+' then .ok { st with positive := true, startNumberNextRune := true }
    else if c = '-' then .ok { st with positive := false, startNumberNextRune := true }
    else if isDigitChar c then .ok st
    else .ok { st with identifier := true, iUnit := i }

/-- The full rune loop of v1 `addDuration`, indexing from `i`. -/
def v1Loop (value : List Char) : ℕ → List Char → V1State → Except GoErr V1State
  | _, [], st => .ok st
  | i, c :: rest, st =>
    match v1Step value i c st with
    | .error e => .error e
    | .ok st' => v1Loop value (i + 1) rest st'

/-- Embedding of v1 `addDuration` (tparse.go lines 106–185).  Note two
points the theorems rely on: on error the source returns the zero
`time.Time` (`var epoch time.Time`), not `base`; and the final
combination at line 184 is `base.Add(tdur).AddDate(ty, tm, td)` — the
linear duration is added *before* the calendar arithmetic. -/
def addDuration (base : ℤ) (value : List Char) : DResult :=
  if value = [] then .ok base
  else
    match v1Loop value 0 value ⟨false, true, 0, 0, false, 0, 0, 0, 0⟩ with
    | .error e => .err zeroTime e
    | .ok st =>
      if st.iNumber < st.iUnit ∧ st.iUnit < value.length then
        match bar value st.positive st.iNumber st.iUnit value.length with
        | .error e => .err zeroTime e
        | .ok (y, m, d, dur) =>
          .ok (addDate (base + (st.tdur + dur)) (st.ty + y) (st.tm + m) (st.td + d))
      else .err zeroTime (.extraChars (String.mk (value.drop st.iNumber)))

/-! ## Entry-point resolver (`ParseWithMap`, tparse.go)

The resolver of src/tparse.go lines 79–99: numeric-epoch fast path
first, then longest-prefix dictionary lookup feeding `addDuration`,
then delegation to the host layout parser `time.Parse`.  The Go map's
unspecified iteration order is modelled by an association list in an
arbitrary order; the final fallback is kept abstract as the
`hostParse` constructor (the host parser is an external collaborator
whose behavior the claims do not constrain). -/

/-- Outcome of the resolver. -/
inductive Resolved where
  | ok (t : ℤ)
  | err (t : ℤ) (e : GoErr)
  /-- Delegated to the host layout parser `time.Parse(layout, value)`
  (tparse.go line 98). -/
  | hostParse (layout value : String)
  | panic
deriving DecidableEq, Repr

/-- Embedding of `fractionToNanos` (tparse.go lines 101–103):
`int64(fraction * 1e9)`. -/
def fractionToNanos (q : ℚ) : ℤ := ratTrunc (qmul q 1000000000)

/-- One step of the dictionary scan (the body of the `for k, v :=
range dict` loop, tparse.go lines 89–94): replace the candidate when
the key is a prefix of `value` and strictly longer than the current
match. -/
def dictStep (value : List Char) (acc kv : String × ℤ) : String × ℤ :=
  if kv.1.data.isPrefixOf value ∧ acc.1.length < kv.1.length then kv else acc

/-- The `for k, v := range dict` scan of tparse.go lines 89–94.  The
list order stands for the Go map's (unspecified) iteration order. -/
def dictScan (value : List Char) (dict : List (String × ℤ)) : String × ℤ :=
  dict.foldl (dictStep value) ("", 0)

/-- Coercion of an evaluator outcome into a resolver outcome (the
resolver returns `addDuration`'s pair unchanged, tparse.go line
96). -/
def liftD : DResult → Resolved
  | .ok t => .ok t
  | .err t e => .err t e
  | .panic => .panic

/-- The non-epoch tail of `ParseWithMap` (tparse.go lines 86–98):
dictionary lookup, else layout delegation. -/
def resolveNonEpoch (layout : String) (value : List Char)
    (dict : List (String × ℤ)) : Resolved :=
  let m := dictScan value dict
  if 0 < m.1.length then liftD (addDuration m.2 (value.drop m.1.length))
  else .hostParse layout (String.mk value)

/-- Embedding of `ParseWithMap` (tparse.go lines 79–99). -/
def ParseWithMap (layout : String) (value : List Char)
    (dict : List (String × ℤ)) : Resolved :=
  match goParseFloat value with
  | some epoch =>
    -- `epoch >= 0` in the source; `0 ≤ num` is the same test (the
    -- denominator is positive) stated on the computable field
    if 0 ≤ epoch.num then
      .ok (ratTrunc epoch * 1000000000 + fractionToNanos (qsub epoch (ratTruncQ epoch)))
    else resolveNonEpoch layout value dict
  | none => resolveNonEpoch layout value dict

/-! ## Helper lemmas -/

theorem ratTruncQ_zero : ratTruncQ 0 = 0 := by decide

theorem ratTruncQ_idem (q : ℚ) : ratTruncQ (ratTruncQ q) = ratTruncQ q := by
  rw [ratTruncQ_eq (ratTruncQ q), ratTruncQ_eq q, ratTrunc_intCast]

/-- The source cascade (with its nonzero guards) computes exactly the
spec's unguarded decomposition: a skipped stage has a zero total,
whose integer part and fractional remainder are both zero. -/
theorem cascade_eq_cascadeSpec (t : Totals) : cascade t = cascadeSpec t := by
  obtain ⟨y, m, d, u⟩ := t
  simp only [cascade, cascadeSpec, qadd_eq, qsub_eq, qmul_eq]
  split_ifs <;> simp_all [ratTruncQ_eq, ratTrunc_zero]

/-- Monotonicity of one dictionary-scan step: the candidate's key
never gets shorter. -/
theorem dictStep_len_le (value : List Char) (acc kv : String × ℤ) :
    acc.1.length ≤ (dictStep value acc kv).1.length := by
  unfold dictStep
  split
  case isTrue h => exact Nat.le_of_lt h.2
  case isFalse => exact Nat.le_refl _

/-- Characterization of the dictionary-scan fold: the result is the
initial candidate or a matching entry of the list that strictly
lengthened it, and its key length dominates every matching entry. -/
theorem dictScan_fold_spec (value : List Char) :
    ∀ (l : List (String × ℤ)) (acc : String × ℤ),
      (List.foldl (dictStep value) acc l = acc ∨
        (List.foldl (dictStep value) acc l ∈ l ∧
          (List.foldl (dictStep value) acc l).1.data.isPrefixOf value = true ∧
          acc.1.length < (List.foldl (dictStep value) acc l).1.length)) ∧
      ∀ kv ∈ l, kv.1.data.isPrefixOf value = true →
        kv.1.length ≤ (List.foldl (dictStep value) acc l).1.length := by
  intro l
  induction l with
  | nil =>
    intro acc
    exact ⟨Or.inl rfl, by simp⟩
  | cons kv rest ih =>
    intro acc
    rw [List.foldl_cons]
    obtain ⟨ih1, ih2⟩ := ih (dictStep value acc kv)
    have hmono : acc.1.length ≤ (dictStep value acc kv).1.length := dictStep_len_le value acc kv
    have hres : (dictStep value acc kv).1.length ≤
        (List.foldl (dictStep value) (dictStep value acc kv) rest).1.length := by
      rcases ih1 with h | ⟨_, _, hlt⟩
      · rw [h]
      · exact Nat.le_of_lt hlt
    constructor
    · rcases ih1 with h | ⟨hmem, hpre, hlt⟩
      · rw [h]
        unfold dictStep
        split
        case isTrue hc => exact Or.inr ⟨List.mem_cons_self kv rest, hc.1, hc.2⟩
        case isFalse => exact Or.inl rfl
      · refine Or.inr ⟨List.mem_cons_of_mem kv hmem, hpre, Nat.lt_of_le_of_lt hmono hlt⟩
    · intro kv' hmem' hpre'
      rcases List.mem_cons.mp hmem' with rfl | hm
      · have h1 : kv'.1.length ≤ (dictStep value acc kv').1.length := by
          unfold dictStep
          split
          case isTrue => exact Nat.le_refl _
          case isFalse hc =>
            rcases Decidable.not_and_iff_or_not.mp hc with h | h
            · exact absurd hpre' h
            · exact Nat.le_of_not_lt h
        exact Nat.le_trans h1 hres
      · exact ih2 kv' hm hpre'

/-- The dictionary scan either finds no nonempty matching key, or
returns an entry of the dictionary whose key is a nonempty prefix of
the value. -/
theorem dictScan_spec (value : List Char) (l : List (String × ℤ)) :
    dictScan value l = ("", 0) ∨
      (dictScan value l ∈ l ∧ (dictScan value l).1.data.isPrefixOf value = true ∧
        0 < (dictScan value l).1.length) := by
  rcases (dictScan_fold_spec value l ("", 0)).1 with h | ⟨hmem, hpre, hlt⟩
  · exact Or.inl h
  · exact Or.inr ⟨hmem, hpre, hlt⟩

/-- The scanned key's length dominates that of every matching key. -/
theorem dictScan_max (value : List Char) (l : List (String × ℤ)) :
    ∀ kv ∈ l, kv.1.data.isPrefixOf value = true →
      kv.1.length ≤ (dictScan value l).1.length :=
  (dictScan_fold_spec value l ("", 0)).2

/-- Two keys of equal length that are both prefixes of the same value
are the same key. -/
theorem key_prefix_unique {value : List Char} {k1 k2 : String}
    (h1 : k1.data.isPrefixOf value = true) (h2 : k2.data.isPrefixOf value = true)
    (hlen : k1.length = k2.length) : k1 = k2 := by
  have p1 : k1.data <+: value := List.isPrefixOf_iff_prefix.mp h1
  have p2 : k2.data <+: value := List.isPrefixOf_iff_prefix.mp h2
  have e1 : k1.data = value.take k1.data.length := List.prefix_iff_eq_take.mp p1
  have e2 : k2.data = value.take k2.data.length := List.prefix_iff_eq_take.mp p2
  have hd : k1.data = k2.data := by
    rw [e1, e2]
    have : k1.data.length = k2.data.length := hlen
    rw [this]
  cases k1 with
  | mk d1 =>
    cases k2 with
    | mk d2 => exact congrArg String.mk hd

/-- Permutation invariance of the dictionary scan when keys are
distinct. -/
theorem dictScan_eq_of_perm (value : List Char) {l1 l2 : List (String × ℤ)}
    (hp : l1.Perm l2) (hnd : (l1.map Prod.fst).Nodup) :
    dictScan value l1 = dictScan value l2 := by
  rcases dictScan_spec value l1 with h1 | ⟨m1, p1, pos1⟩
  · rcases dictScan_spec value l2 with h2 | ⟨m2, p2, pos2⟩
    · rw [h1, h2]
    · exfalso
      have hin : dictScan value l2 ∈ l1 := hp.symm.subset m2
      have := dictScan_max value l1 _ hin p2
      rw [h1] at this
      simp at this
      omega
  · rcases dictScan_spec value l2 with h2 | ⟨m2, p2, pos2⟩
    · exfalso
      have hin : dictScan value l1 ∈ l2 := hp.subset m1
      have := dictScan_max value l2 _ hin p1
      rw [h2] at this
      simp at this
      omega
    · have hm12 : dictScan value l1 ∈ l2 := hp.subset m1
      have hm21 : dictScan value l2 ∈ l1 := hp.symm.subset m2
      have le1 := dictScan_max value l1 _ hm21 p2
      have le2 := dictScan_max value l2 _ hm12 p1
      have hlen : (dictScan value l1).1.length = (dictScan value l2).1.length :=
        Nat.le_antisymm le2 le1
      have hkey : (dictScan value l1).1 = (dictScan value l2).1 :=
        key_prefix_unique p1 p2 hlen
      exact List.inj_on_of_nodup_map hnd m1 hm21 hkey

/-! ## Claim theorems -/

/-- C1: after token accumulation the Evaluator decomposes fractional
calendar totals in a fixed cascade — the fractional remainder of the
year total adds 12 × itself to the month total, then the month
remainder adds 30 × itself to the day total, then the day remainder
adds 24 hours × itself to the linear-duration total; in particular,
for base 2003-07-02T15:04:05Z, evaluating `"+2.5years"` yields
2006-01-02T15:04:05Z. -/
theorem evaluator_fractional_cascade :
    (∀ t : Totals, cascade t = cascadeSpec t) ∧
    AddDuration (mkInstant 2003 7 2 15 4 5) (str "+2.5years") =
      .ok (mkInstant 2006 1 2 15 4 5) :=
  ⟨cascade_eq_cascadeSpec, by decide⟩

/-- C2: whenever the Evaluator succeeds on a nonempty expression, the
result is obtained by first applying calendar arithmetic (the
`AddDate` step on the integer year/month/day totals) to the base and
only afterwards adding the accumulated linear duration; the cascaded
calendar totals are integers. -/
theorem evaluator_calendar_before_linear :
    ∀ (base : ℤ) (s : List Char) (t : ℤ), s ≠ [] →
      AddDuration base s = .ok t →
      ∃ tot : Totals, scanExpr s = .ok tot ∧
        t = applyLinear (applyCalendar base (cascade tot)) (cascade tot) ∧
        (cascade tot).years = ratTruncQ (cascade tot).years ∧
        (cascade tot).months = ratTruncQ (cascade tot).months ∧
        (cascade tot).days = ratTruncQ (cascade tot).days := by
  intro base s t hne h
  unfold AddDuration at h
  rw [if_neg hne] at h
  cases hscan : scanExpr s with
  | panic => rw [hscan] at h; cases h
  | err e => rw [hscan] at h; cases h
  | ok tot =>
    rw [hscan] at h
    cases h
    refine ⟨tot, rfl, rfl, ?_, ?_, ?_⟩ <;>
      rw [cascade_eq_cascadeSpec] <;>
      simp only [cascadeSpec] <;>
      rw [ratTruncQ_idem]

/-- Witness for C2 at base 0 and expression `"+1mo2h"` (one calendar
month, then two linear hours: 1970-02-01T02:00:00Z). -/
theorem evaluator_calendar_before_linear_witness :
    ∃ tot : Totals, scanExpr (str "+1mo2h") = .ok tot ∧
      (2685600000000000 : ℤ) = applyLinear (applyCalendar 0 (cascade tot)) (cascade tot) ∧
      (cascade tot).years = ratTruncQ (cascade tot).years ∧
      (cascade tot).months = ratTruncQ (cascade tot).months ∧
      (cascade tot).days = ratTruncQ (cascade tot).days :=
  evaluator_calendar_before_linear 0 (str "+1mo2h") 2685600000000000 (by decide) (by decide)

/-- C3: whenever the Evaluator returns an error, the instant it
returns alongside the error is the original base, never a mutated or
zero instant. -/
theorem evaluator_error_returns_base :
    ∀ (base : ℤ) (s : List Char) (t : ℤ) (e : GoErr),
      AddDuration base s = .err t e → t = base := by
  intro base s t e h
  unfold AddDuration at h
  split at h
  · cases h
  · cases hscan : scanExpr s with
    | panic => rw [hscan] at h; cases h
    | err e' => rw [hscan] at h; cases h; rfl
    | ok tot => rw [hscan] at h; cases h

/-- Witness for C3: `AddDuration 5 "3q"` fails with an unknown-unit
error and returns the base 5. -/
theorem evaluator_error_returns_base_witness : (5 : ℤ) = 5 :=
  evaluator_error_returns_base 5 (str "3q") 5 (.unknownUnit "q") (by decide)

/-- C4 (code bug): on a bare sign, a trailing sign, or an input that
ends mid-token (digits with no unit), the v2 Evaluator does not return
a parse error — its digit loop indexes `s[0]` on the empty string and
panics (part_005 line 172), contradicting the spec and the module's
own test `TestAddDurationRejectsSignWithoutDigits`. -/
theorem evaluator_malformed_tail_panics :
    AddDuration 0 (str "+") = .panic ∧
    AddDuration 0 (str "-") = .panic ∧
    AddDuration 0 (str "1h+") = .panic ∧
    AddDuration 0 (str "2") = .panic ∧
    AddDuration 0 (str "+2") = .panic := by
  refine ⟨by decide, by decide, by decide, by decide, by decide⟩

/-- C5 (code bug): the v2 Evaluator does reject an unknown unit with
an error carrying the offending spelling, but the v1 fallback variant
(`calcDuration`) discards `time.ParseDuration`'s error — on `"5xyz"`
the fallback fails, yet `calcDuration` returns success with a zero
duration and the whole v1 call silently succeeds, leaving the base
unchanged. -/
theorem fallback_error_swallowed :
    goParseDuration (str "5xyz") = none ∧
    calcDuration true (str "5") (str "xyz") = .ok (0, 0, 0, 0) ∧
    addDuration 0 (str "5xyz") = .ok 0 ∧
    AddDuration 0 (str "5xyz") = .err 0 (.unknownUnit "xyz") := by
  refine ⟨by decide, by rfl, by decide, by decide⟩

/-- C6: when the value parses as a non-negative number the Resolver
returns the epoch instant — Unix second the integer part, nanosecond
the fractional part × 1e9 truncated — for every layout and dictionary;
a negative numeric value is never treated as an epoch and falls
through to the dictionary/layout path. -/
theorem resolver_epoch_fast_path :
    ∀ (layout : String) (value : List Char) (dict : List (String × ℤ)) (q : ℚ),
      goParseFloat value = some q →
      (0 ≤ q → ParseWithMap layout value dict =
        .ok (ratTrunc q * 1000000000 + fractionToNanos (qsub q (ratTruncQ q)))) ∧
      (q < 0 → ParseWithMap layout value dict = resolveNonEpoch layout value dict) := by
  intro layout value dict q hq
  constructor
  · intro h0
    have hnum : 0 ≤ q.num := Rat.num_nonneg.mpr h0
    simp only [ParseWithMap, hq]
    rw [if_pos hnum]
  · intro h0
    have hnum : ¬ 0 ≤ q.num := by
      rw [Rat.num_nonneg]
      exact not_le.mpr h0
    simp only [ParseWithMap, hq]
    rw [if_neg hnum]

/-- Witness for C6: `"1445535988.5"` resolves to Unix second
1445535988, nanosecond 500000000, for the empty dictionary. -/
theorem resolver_epoch_fast_path_witness :
    ParseWithMap "" (str "1445535988.5") [] = .ok 1445535988500000000 := by
  have h := (resolver_epoch_fast_path "" (str "1445535988.5") [] (mkRat 2891071977 2)
    (by decide)).1 (Rat.num_nonneg.mp (by decide))
  rw [h]
  decide

/-- C7: on a non-numeric value, the Resolver evaluates the remainder
of the value against the instant of a dictionary key that is a prefix
of the value of maximal length; with dict `{"s" ↦ A, "start" ↦ B}`
and value `"start+1h"` the result comes from `B` (here
2006-01-02T15:04:05Z), in either iteration order. -/
theorem resolver_longest_prefix :
    (∀ (layout : String) (value : List Char) (dict : List (String × ℤ))
        (k : String) (v : ℤ),
      goParseFloat value = none → (k, v) ∈ dict → k ≠ "" →
      k.data.isPrefixOf value = true →
      ∃ kb vb, (kb, vb) ∈ dict ∧ kb.data.isPrefixOf value = true ∧
        (∀ k' v', (k', v') ∈ dict → k'.data.isPrefixOf value = true →
          k'.length ≤ kb.length) ∧
        ParseWithMap layout value dict = liftD (addDuration vb (value.drop kb.length))) ∧
    ParseWithMap "" (str "start+1h") [("s", 0), ("start", 1136214245000000000)] =
      .ok 1136217845000000000 ∧
    ParseWithMap "" (str "start+1h") [("start", 1136214245000000000), ("s", 0)] =
      .ok 1136217845000000000 := by
  refine ⟨?_, by decide, by decide⟩
  intro layout value dict k v hfloat hmem hne hpre
  have hpos : 0 < k.length := by
    cases k with
    | mk d =>
      cases d with
      | nil => exact absurd rfl hne
      | cons c cs => simp [String.length]
  have hmax := dictScan_max value dict (k, v) hmem hpre
  have hlen : 0 < (dictScan value dict).1.length := Nat.lt_of_lt_of_le hpos hmax
  rcases dictScan_spec value dict with h | ⟨hm, hp2, _⟩
  · rw [h] at hlen
    simp at hlen
  · refine ⟨(dictScan value dict).1, (dictScan value dict).2, hm, hp2, ?_, ?_⟩
    · intro k' v' hmem' hpre'
      exact dictScan_max value dict (k', v') hmem' hpre'
    · simp only [ParseWithMap, hfloat, resolveNonEpoch]
      rw [if_pos hlen]

/-- Witness for C7 with dict `[("s", 0), ("start", 5)]` and value
`"start+1h"`. -/
theorem resolver_longest_prefix_witness :
    ∃ kb vb, ((kb, vb) ∈ [("s", (0 : ℤ)), ("start", 5)]) ∧
      kb.data.isPrefixOf (str "start+1h") = true ∧
      (∀ k' v', ((k', v') ∈ [("s", (0 : ℤ)), ("start", 5)]) →
        k'.data.isPrefixOf (str "start+1h") = true → k'.length ≤ kb.length) ∧
      ParseWithMap "" (str "start+1h") [("s", (0 : ℤ)), ("start", 5)] =
        liftD (addDuration vb ((str "start+1h").drop kb.length)) :=
  resolver_longest_prefix.1 "" (str "start+1h") [("s", 0), ("start", 5)] "s" 0
    (by decide) (by simp) (by decide) (by decide)

/-- C8 counterexample: a sign is *not* scoped to the token it
prefixes, and a missing number is *not* rejected.  On `"-1h1h"` the
unsigned second token inherits the minus sign (result −2 h, not the
claim's −1 h + 1 h = 0), and the digitless expression `"h"` is
accepted as zero rather than rejected. -/
theorem sign_scope_counterexample :
    AddDuration 0 (str "-1h1h") = .ok (-7200000000000) ∧
    AddDuration 0 (str "-1h1h") ≠ .ok 0 ∧
    AddDuration 0 (str "h") = .ok 0 := by
  refine ⟨by decide, by decide, by decide⟩

/-- C8 amended: a consumed sign persists for all subsequent tokens
until another explicit sign appears (an unsigned token keeps the
current sign state), and a token may omit its digits — the unit is
then accepted with the residual number value, which is zero unless an
earlier token left fraction digits behind. -/
theorem sign_persists_and_digitless_accepted :
    (∀ (s : List Char) (neg : Bool), s.head? ≠ some '+' → s.head? ≠ some '-' →
      consumeSign s neg = (neg, s)) ∧
    (∀ (rest : List Char) (neg : Bool),
      consumeSign ('+' :: rest) neg = (false, rest) ∧
      consumeSign ('-' :: rest) neg = (true, rest)) ∧
    (∀ (c : Char) (rest : List Char) (exp fraction : ℤ),
      c ≠ '.' → isDigitChar c = false →
      consumeDigits (c :: rest) exp fraction 0 = .ok (c :: rest) exp fraction 0) ∧
    AddDuration 0 (str "-1h1h") = .ok (-7200000000000) ∧
    AddDuration 0 (str "h") = .ok 0 ∧
    AddDuration 0 (str "1.5h+h") = .ok 7200000000000 := by
  refine ⟨?_, ?_, ?_, by decide, by decide, by decide⟩
  · intro s neg h1 h2
    cases s with
    | nil => rfl
    | cons c rest =>
      have hc1 : c ≠ '+' := by simpa using h1
      have hc2 : c ≠ '-' := by simpa using h2
      simp [consumeSign, hc1, hc2]
  · intro rest neg
    constructor <;> simp [consumeSign]
  · intro c rest exp fraction h1 h2
    simp [consumeDigits, h1, h2]

/-- Witness for C8's amended statement: an unsigned token keeps the
negative sign state, and a digitless token exits the digit loop with
the residual state intact. -/
theorem sign_persists_witness :
    consumeSign (str "2h") true = (true, str "2h") ∧
    consumeDigits (str "h") 2 5 0 = .ok (str "h") 2 5 0 :=
  ⟨sign_persists_and_digitless_accepted.1 (str "2h") true (by decide) (by decide),
    sign_persists_and_digitless_accepted.2.2.1 'h' [] 2 5 (by decide) (by decide)⟩

/-- C9 counterexample: in the v2 Evaluator the week token is *not*
applied through the calendar-day total — scanning `"+1week"` leaves
the day total at 0 (not 7) and puts the full 168 h into the
linear-duration total. -/
theorem week_not_calendar_counterexample :
    ¬ ∃ tot : Totals, scanExpr (str "+1week") = .ok tot ∧
      tot.days = 7 ∧ tot.dur = 0 := by
  rintro ⟨tot, h, hd, hdur⟩
  have he : scanExpr (str "+1week") = .ok ⟨0, 0, 0, 604800000000000⟩ := by decide
  rw [he] at h
  cases h
  exact absurd hd (by decide)

/-- C9 amended: in the v2 Evaluator the day and week spellings are
fixed-length linear-duration units (24 h and 168 h) accumulated into
the duration total, so `"+1week"` adds exactly 604800 × 10⁹ ns of
linear time; only the superseded v1 variant (`calcDuration`,
`addDuration`) applies them as calendar days via `AddDate`. -/
theorem week_is_linear_duration :
    (∀ T : ℤ, AddDuration T (str "+1week") = .ok (T + 604800000000000)) ∧
    scanExpr (str "+1week") = .ok ⟨0, 0, 0, 604800000000000⟩ ∧
    unitMap "w" = some 604800000000000 ∧ unitMap "week" = some 604800000000000 ∧
    unitMap "weeks" = some 604800000000000 ∧ unitMap "d" = some 86400000000000 ∧
    unitMap "day" = some 86400000000000 ∧ unitMap "days" = some 86400000000000 ∧
    calcDuration true (str "1") (str "week") = .ok (0, 0, 7, 0) ∧
    (∀ T : ℤ, addDuration T (str "+1week") = .ok (addDate T 0 0 7)) := by
  refine ⟨?_, by decide, by decide, by decide, by decide, by decide, by decide, by decide,
    by rfl, ?_⟩
  · intro T
    rfl
  · intro T
    have h : addDuration T (str "+1week") =
        .ok (addDate (T + (0 + 0)) (0 + 0) (0 + 0) (0 + 7)) := rfl
    simpa using h

/-- C10: the Resolver is deterministic despite the unspecified map
iteration order — at most one key of any given length is a prefix of
the value, the scan only replaces its candidate with a strictly longer
match, and two runs over permutations of the same dictionary (with
distinct keys, as a Go map guarantees) return equal results. -/
theorem resolver_deterministic :
    (∀ (value : List Char) (k1 k2 : String),
      k1.data.isPrefixOf value = true → k2.data.isPrefixOf value = true →
      k1.length = k2.length → k1 = k2) ∧
    ∀ (layout : String) (value : List Char) (l1 l2 : List (String × ℤ)),
      l1.Perm l2 → (l1.map Prod.fst).Nodup →
      ParseWithMap layout value l1 = ParseWithMap layout value l2 := by
  refine ⟨fun value k1 k2 h1 h2 h3 => key_prefix_unique h1 h2 h3, ?_⟩
  intro layout value l1 l2 hp hnd
  have hscan : dictScan value l1 = dictScan value l2 := dictScan_eq_of_perm value hp hnd
  unfold ParseWithMap
  cases goParseFloat value with
  | none => simp only [resolveNonEpoch, hscan]
  | some q => simp only [resolveNonEpoch, hscan]

/-- Witness for C10: the two iteration orders of
`{"s" ↦ 1, "start" ↦ 2}` resolve `"start+1h"` identically. -/
theorem resolver_deterministic_witness :
    ParseWithMap "" (str "start+1h") [("s", (1 : ℤ)), ("start", 2)] =
      ParseWithMap "" (str "start+1h") [("start", (2 : ℤ)), ("s", 1)] :=
  resolver_deterministic.2 "" (str "start+1h") [("s", 1), ("start", 2)]
    [("start", 2), ("s", 1)] (by decide) (by decide)

end Tparse
